import Mathlib

/-!
Shallow embedding of the time-entry web application in src/app/main.py.

Calendar dates are represented by their proleptic-Gregorian ordinal
(day number, with 0001-01-01 = day 1), exactly as CPython's datetime
module computes them; date.fromisocalendar and the week arithmetic of
iso_week_dates are translated from that implementation.  The database
tables v2_people, v2_projects and v2_time_entries are lists of records,
and each HTTP handler body becomes a function on that state; operations
whose SQL can be rejected by the schema constraints of ensure_v2_schema
(the NUMERIC(5,2) type of hours, CHECK hours >= 0, the person and project
foreign keys) or that can raise in Python return Except String.
-/

/-- Leap-year test, as CPython datetime._is_leap. -/
def isLeap (y : Int) : Bool :=
  y % 4 == 0 && (y % 100 != 0 || y % 400 == 0)

/-- Number of days before January 1st of the given year,
as CPython datetime._days_before_year. -/
def daysBeforeYear (y : Int) : Int :=
  365 * (y - 1) + (y - 1) / 4 - (y - 1) / 100 + (y - 1) / 400

/-- Days in a month, as CPython datetime._days_in_month. -/
def daysInMonth (y m : Int) : Int :=
  if m = 2 then (if isLeap y then 29 else 28)
  else if m = 4 ∨ m = 6 ∨ m = 9 ∨ m = 11 then 30
  else 31

/-- Number of days in the given year strictly before the first of the
given month, as CPython datetime._days_before_month. -/
def daysBeforeMonth (y m : Int) : Int :=
  let base : Int :=
    if m = 1 then 0 else if m = 2 then 31 else if m = 3 then 59
    else if m = 4 then 90 else if m = 5 then 120 else if m = 6 then 151
    else if m = 7 then 181 else if m = 8 then 212 else if m = 9 then 243
    else if m = 10 then 273 else if m = 11 then 304 else 334
  base + (if 2 < m ∧ isLeap y then 1 else 0)

/-- Ordinal (day number, 0001-01-01 is day 1) of a calendar date,
as CPython datetime._ymd2ord.  Day 1 is a Monday, so an ordinal d falls
on a Monday iff d % 7 = 1 and on a Thursday iff d % 7 = 4. -/
def ymd2ord (y m d : Int) : Int :=
  daysBeforeYear y + daysBeforeMonth y m + d

/-- Ordinal of the Monday starting ISO week 1 of the given year,
as CPython datetime._isoweek1monday. -/
def isoweek1monday (y : Int) : Int :=
  let firstday := ymd2ord y 1 1
  let firstweekday := (firstday + 6) % 7
  let week1monday := firstday - firstweekday
  if firstweekday > 3 then week1monday + 7 else week1monday

/-- CPython's long-ISO-year condition: week 53 exists exactly for years
starting on a Thursday and leap years starting on a Wednesday. -/
def isLongYear (y : Int) : Bool :=
  ymd2ord y 1 1 % 7 == 4 || (ymd2ord y 1 1 % 7 == 3 && isLeap y)

/-- Ordinal of the date with the given ISO year, ISO week and ISO weekday,
as CPython datetime._isoweek_to_gregorian (the body of
date.fromisocalendar); invalid arguments raise ValueError there and
produce an error value here. -/
def fromisocalendar (year week day : Int) : Except String Int :=
  if year < 1 ∨ 9999 < year then .error "Year is out of range"
  else if (week < 1 ∨ 52 < week) ∧ ¬(week = 53 ∧ isLongYear year = true) then
    .error "Invalid week"
  else if day < 1 ∨ 7 < day then .error "Invalid weekday"
  else .ok (isoweek1monday year + (week - 1) * 7 + (day - 1))

/-- The seven dates of an ISO week, as iso_week_dates in src/app/main.py:
the Monday obtained from date.fromisocalendar(year, week, 1) followed by
the next six days. -/
def iso_week_dates (year week : Int) : Except String (List Int) :=
  match fromisocalendar year week 1 with
  | .error e => .error e
  | .ok monday => .ok ((List.range 7).map (fun i => monday + (i : Int)))

/-- The actual number of ISO weeks of an ISO year, defined independently
of the validity test above: ISO year y spans the days from the Monday of
its week 1 up to the Monday of week 1 of year y+1, and its week count is
the length of that span in weeks. -/
def weeksInYear (y : Int) : Int :=
  (isoweek1monday (y + 1) - isoweek1monday y) / 7

/-- A row of v2_people. -/
structure Person where
  id : Int
  name : String
  email : Option String
deriving DecidableEq, Repr

/-- A row of v2_projects. -/
structure Project where
  id : Int
  code : Option String
  name : String
  is_active : Bool
deriving DecidableEq, Repr

/-- A row of v2_time_entries.  The hours column is NUMERIC(5,2), modelled
as an exact rational (the insert path rounds it to two decimals and bounds
it below 1000); status is the TEXT column, written only by the SQL of the
handlers below. -/
structure TimeEntry where
  id : Int
  person_id : Int
  project_id : Option Int
  work_date : Int
  hours : ℚ
  notes : Option String
  status : String
deriving DecidableEq, Repr

/-- Replace the status column of one row, as an SQL UPDATE of status does. -/
def setStatus (e : TimeEntry) (st : String) : TimeEntry :=
  ⟨e.id, e.person_id, e.project_id, e.work_date, e.hours, e.notes, st⟩

/-- The three v2 tables plus the BIGSERIAL counter of v2_time_entries. -/
structure DB where
  people : List Person
  projects : List Project
  entries : List TimeEntry
  next_entry_id : Int
deriving DecidableEq, Repr

/-- The state right after ensure_v2_schema seeds an empty database:
one person (Ada Lovelace) and one project (Internal), no time entries. -/
def initDB : DB :=
  ⟨[⟨1, "Ada Lovelace", some "ada@example.com"⟩],
   [⟨1, some "INT", "Internal", true⟩], [], 1⟩

/-- Foreign-key check of v2_time_entries.person_id REFERENCES v2_people(id). -/
def personExists (s : DB) (pid : Int) : Bool :=
  s.people.any (fun p => p.id == pid)

/-- Foreign-key check of the nullable column
v2_time_entries.project_id REFERENCES v2_projects(id). -/
def projectRefOk (s : DB) (pj : Option Int) : Bool :=
  match pj with
  | none => true
  | some j => s.projects.any (fun p => p.id == j)

/-- Coercion of an incoming hours value into the NUMERIC(5,2) column type of
v2_time_entries.hours, expressed in hundredths: PostgreSQL rounds the value
to two decimal places, away from zero on ties.  The rounded value must stay
below 1000.00 in magnitude (five digits, two of them decimals) or the INSERT
fails with a numeric-field-overflow error before any constraint is
checked. -/
def round2cents (q : ℚ) : Int :=
  if q < 0 then -⌊100 * -q + 1 / 2⌋ else ⌊100 * q + 1 / 2⌋

/-- POST /time/add (time_add in src/app/main.py): a single INSERT of a row
with status draft.  The handler itself validates nothing; the INSERT is
rejected by the schema of ensure_v2_schema when the NUMERIC(5,2) coercion of
hours overflows, when the CHECK (hours >= 0) fails on the stored (rounded)
value, or when a foreign key fails; then no row is created.  On success the
stored hours are the rounded value. -/
def time_add (s : DB) (person_id : Int) (project_id : Option Int)
    (work_date : Int) (hours : ℚ) (notes : Option String) : Except String DB :=
  if 100000 ≤ |round2cents hours| then .error "numeric field overflow"
  else if round2cents hours < 0 then .error "v2_time_entries_hours_check"
  else if personExists s person_id then
    if projectRefOk s project_id then
      .ok ⟨s.people, s.projects,
           s.entries ++ [⟨s.next_entry_id, person_id, project_id, work_date,
                          (round2cents hours : ℚ) / 100, notes, "draft"⟩],
           s.next_entry_id + 1⟩
    else .error "v2_time_entries_project_id_fkey"
  else .error "v2_time_entries_person_id_fkey"

/-- POST /time/delete/{entry_id} (time_delete): DELETE FROM v2_time_entries
WHERE id = entry_id. -/
def time_delete (s : DB) (entry_id : Int) : DB :=
  ⟨s.people, s.projects, s.entries.filter (fun e => e.id != entry_id),
   s.next_entry_id⟩

/-- POST /time/submit-week (time_submit_week): computes the week range with
iso_week_dates (start = first date, stop = last date) and runs
UPDATE v2_time_entries SET status = submitted WHERE person_id = pid AND
work_date BETWEEN start AND stop AND status = draft.  An invalid week makes
iso_week_dates raise before any update. -/
def time_submit_week (s : DB) (person_id year week : Int) : Except String DB :=
  match iso_week_dates year week with
  | .error e => .error e
  | .ok ds =>
    let start := ds.headD 0
    let stop := ds.getLastD 0
    .ok ⟨s.people, s.projects,
         s.entries.map (fun e =>
           if e.person_id = person_id ∧ start ≤ e.work_date ∧
              e.work_date ≤ stop ∧ e.status = "draft"
           then setStatus e "submitted" else e),
         s.next_entry_id⟩

/-- POST /approvals/approve/{entry_id} (approvals_approve):
UPDATE v2_time_entries SET status = approved WHERE id = entry_id,
with no guard on the previous status. -/
def approvals_approve (s : DB) (entry_id : Int) : DB :=
  ⟨s.people, s.projects,
   s.entries.map (fun e => if e.id = entry_id then setStatus e "approved" else e),
   s.next_entry_id⟩

/-- POST /approvals/reject/{entry_id} (approvals_reject):
UPDATE v2_time_entries SET status = draft WHERE id = entry_id,
with no guard on the previous status. -/
def approvals_reject (s : DB) (entry_id : Int) : DB :=
  ⟨s.people, s.projects,
   s.entries.map (fun e => if e.id = entry_id then setStatus e "draft" else e),
   s.next_entry_id⟩

/-- What GET /my-week computes for one person and week: the seven days, the
rows of that person in the range grouped by day, the float total and the
status hint. -/
structure WeekSummary where
  days : List Int
  by_day : List (Int × List TimeEntry)
  total_hours : ℚ
  status_hint : String
deriving DecidableEq, Repr

/-- The SQL aggregate COALESCE(BOOL_AND(status='approved'), FALSE) of the
my_week handler: false over an empty range, otherwise true when every row in
range is approved. -/
def sql_all_approved (rows : List TimeEntry) : Bool :=
  !rows.isEmpty && rows.all (fun e => e.status == "approved")

/-- The SQL aggregate COALESCE(BOOL_OR(status='submitted'), FALSE) of the
my_week handler. -/
def sql_any_submitted (rows : List TimeEntry) : Bool :=
  rows.any (fun e => e.status == "submitted")

/-- The status_hint value the my_week handler computes from the two
aggregates. -/
def hint_of_rows (rows : List TimeEntry) : String :=
  if sql_all_approved rows then "approved"
  else if sql_any_submitted rows then "submitted" else "draft"

/-- GET /my-week (my_week in src/app/main.py), for an explicit person_id:
days = iso_week_dates(year, week); the SELECT filters the person's rows
with work_date BETWEEN days[0] AND days[-1]; by_day starts as an empty
bucket per day and each row is appended to the bucket of its work_date;
total sums the hours; the status hint comes from
COALESCE(BOOL_AND(status=approved), FALSE) and
COALESCE(BOOL_OR(status=submitted), FALSE) over the same range. -/
def my_week (s : DB) (person_id year week : Int) : Except String WeekSummary :=
  match iso_week_dates year week with
  | .error e => .error e
  | .ok days =>
    let start := days.headD 0
    let stop := days.getLastD 0
    let rows := s.entries.filter (fun e =>
      decide (e.person_id = person_id ∧ start ≤ e.work_date ∧ e.work_date ≤ stop))
    let by_day := days.map (fun d =>
      (d, rows.filter (fun e => decide (e.work_date = d))))
    let total := (rows.map (fun e => e.hours)).sum
    .ok ⟨days, by_day, total, hint_of_rows rows⟩

/-- The set of rows the my-week SELECT ranges over, read the way the spec
words it: the entries of the person whose work_date is one of the days of
the week (the handler expresses the same range with BETWEEN). -/
def weekRows (s : DB) (pid : Int) (ds : List Int) : List TimeEntry :=
  s.entries.filter (fun e => decide (e.person_id = pid ∧ e.work_date ∈ ds))

/-- pick_default_person_id in src/app/main.py:
SELECT id FROM v2_people ORDER BY id LIMIT 1, raising
RuntimeError("No v2_people in DB") when the table is empty. -/
def pick_default_person_id (s : DB) : Except String Int :=
  match (List.insertionSort (fun a b => a ≤ b) (s.people.map Person.id)).head? with
  | some i => .ok i
  | none => .error "No v2_people in DB"

/-- GET /my-week as routed: when the person_id query parameter is absent
(or 0, which is falsy in Python), the handler substitutes
pick_default_person_id before computing the week view. -/
def my_week_route (s : DB) (person_id : Option Int) (year week : Int) :
    Except String WeekSummary :=
  match (if person_id.getD 0 = 0 then pick_default_person_id s
         else .ok (person_id.getD 0)) with
  | .error e => .error e
  | .ok pid => my_week s pid year week



/-- The dates 2024-01-01 through 2024-01-07 by ordinal. -/
def wk2024 : List Int :=
  [738886, 738887, 738888, 738889, 738890, 738891, 738892]
/-- A database with one draft time entry, used to instantiate theorems. -/
def oneEntryDB : DB :=
  ⟨[⟨1, "Ada Lovelace", some "ada@example.com"⟩],
   [⟨1, some "INT", "Internal", true⟩],
   [⟨1, 1, none, 738886, 8, none, "draft"⟩], 2⟩
/-- Every time entry of the state carries one of the three enumerated
statuses. -/
def statusOk (s : DB) : Prop :=
  ∀ e ∈ s.entries, e.status = "draft" ∨ e.status = "submitted" ∨
    e.status = "approved"

/-- One workflow operation of the application: a successful add, a delete, a
successful weekly submit, an approve or a reject. -/
inductive Step : DB → DB → Prop where
  | add (s : DB) (pid : Int) (pj : Option Int) (wd : Int) (hq : ℚ)
      (n : Option String) (s' : DB) :
      time_add s pid pj wd hq n = .ok s' → Step s s'
  | del (s : DB) (eid : Int) : Step s (time_delete s eid)
  | submit (s : DB) (pid y w : Int) (s' : DB) :
      time_submit_week s pid y w = .ok s' → Step s s'
  | approve (s : DB) (eid : Int) : Step s (approvals_approve s eid)
  | reject (s : DB) (eid : Int) : Step s (approvals_reject s eid)

/-- States reachable from the freshly seeded database through the workflow
operations. -/
inductive ReachableDB : DB → Prop where
  | init : ReachableDB initDB
  | step (s s' : DB) : ReachableDB s → Step s s' → ReachableDB s'
/-- A week of person 1 holding one approved 6h entry (2024-01-02) and one
submitted 2h entry (2024-01-03). -/
def exWeekDB : DB :=
  ⟨[⟨1, "Ada Lovelace", some "ada@example.com"⟩],
   [⟨1, some "INT", "Internal", true⟩],
   [⟨1, 1, none, 738887, 6, none, "approved"⟩,
    ⟨2, 1, none, 738888, 2, none, "submitted"⟩], 3⟩

/-- The summary my_week computes on exWeekDB for 2024 week 1. -/
def exWeekSummary : WeekSummary :=
  ⟨[738886, 738887, 738888, 738889, 738890, 738891, 738892],
   [(738886, []), (738887, [⟨1, 1, none, 738887, 6, none, "approved"⟩]),
    (738888, [⟨2, 1, none, 738888, 2, none, "submitted"⟩]),
    (738889, []), (738890, []), (738891, []), (738892, [])],
   8, "submitted"⟩
/-- Two people with ids out of storage order, no time entries. -/
def twoPeopleDB : DB :=
  ⟨[⟨2, "Grace Hopper", none⟩, ⟨1, "Ada Lovelace", some "ada@example.com"⟩],
   [], [], 1⟩
deriving instance DecidableEq for Except

/-! Helper lemmas about the calendar embedding. -/

theorem fromisocalendar_ok {y w d m : Int} (h : fromisocalendar y w d = .ok m) :
    m = isoweek1monday y + (w - 1) * 7 + (d - 1) ∧ 1 ≤ y ∧ y ≤ 9999 ∧
    ((1 ≤ w ∧ w ≤ 52) ∨ (w = 53 ∧ isLongYear y = true)) ∧ 1 ≤ d ∧ d ≤ 7 := by
  unfold fromisocalendar at h
  split_ifs at h with h1 h2 h3
  injection h with h4
  have hw : (1 ≤ w ∧ w ≤ 52) ∨ (w = 53 ∧ isLongYear y = true) := by
    rcases Decidable.em (w < 1 ∨ 52 < w) with hr | hr
    · exact Or.inr (Decidable.not_not.mp (not_and.mp h2 hr))
    · exact Or.inl (by omega)
  exact ⟨h4.symm, by omega, by omega, hw, by omega, by omega⟩

theorem iso_week_dates_ok {y w : Int} {ds : List Int}
    (h : iso_week_dates y w = .ok ds) :
    ds = (List.range 7).map (fun i => isoweek1monday y + (w - 1) * 7 + (i : Int)) ∧
    1 ≤ y ∧ y ≤ 9999 ∧ ((1 ≤ w ∧ w ≤ 52) ∨ (w = 53 ∧ isLongYear y = true)) := by
  unfold iso_week_dates at h
  cases heq : fromisocalendar y w 1 with
  | error e => rw [heq] at h; exact Except.noConfusion h
  | ok monday =>
    rw [heq] at h
    injection h with h4
    obtain ⟨hm, hy1, hy2, hw, -, -⟩ := fromisocalendar_ok heq
    subst h4
    refine ⟨?_, hy1, hy2, hw⟩
    simp only [hm]
    norm_num

theorem isoweek1monday_mod (y : Int) : isoweek1monday y % 7 = 1 := by
  simp only [isoweek1monday]
  split_ifs <;> omega

theorem first_thursday (y : Int) :
    (isoweek1monday y + 3) % 7 = 4 ∧
    ymd2ord y 1 1 ≤ isoweek1monday y + 3 ∧
    isoweek1monday y + 3 ≤ ymd2ord y 1 1 + 6 := by
  simp only [isoweek1monday]
  split_ifs <;> omega

theorem isLeap_iff (y : Int) :
    isLeap y = true ↔ (y % 4 = 0 ∧ (y % 100 ≠ 0 ∨ y % 400 = 0)) := by
  simp [isLeap]

theorem jan1_next (y : Int) :
    ymd2ord (y + 1) 1 1 = ymd2ord y 1 1 + (if isLeap y = true then 366 else 365) := by
  have h1 := isLeap_iff y
  simp only [ymd2ord, daysBeforeYear, daysBeforeMonth]
  norm_num
  split_ifs at h1 ⊢ with h2 <;> simp [h2] at h1 <;> omega

theorem weeksInYear_eq (y : Int) :
    weeksInYear y = if isLongYear y = true then 53 else 52 := by
  have hnext := jan1_next y
  have hlong : isLongYear y = true ↔
      (ymd2ord y 1 1 % 7 = 4 ∨ (ymd2ord y 1 1 % 7 = 3 ∧ isLeap y = true)) := by
    simp [isLongYear]
  rcases Decidable.em (isLeap y = true) with hl | hl
  · have hb : ymd2ord (y + 1) 1 1 = ymd2ord y 1 1 + 366 := by
      rw [hnext, if_pos hl]
    simp only [weeksInYear, isoweek1monday, hb, hlong, hl]
    split_ifs <;> simp_all <;> omega
  · have hb : ymd2ord (y + 1) 1 1 = ymd2ord y 1 1 + 365 := by
      rw [hnext, if_neg hl]
    simp only [weeksInYear, isoweek1monday, hb, hlong, hl]
    split_ifs <;> simp_all <;> omega

theorem iso_week_dates_ok_list {y w : Int} {ds : List Int}
    (h : iso_week_dates y w = .ok ds) :
    ds = [isoweek1monday y + (w - 1) * 7, isoweek1monday y + (w - 1) * 7 + 1,
          isoweek1monday y + (w - 1) * 7 + 2, isoweek1monday y + (w - 1) * 7 + 3,
          isoweek1monday y + (w - 1) * 7 + 4, isoweek1monday y + (w - 1) * 7 + 5,
          isoweek1monday y + (w - 1) * 7 + 6] := by
  rw [(iso_week_dates_ok h).1]
  norm_num [List.range_succ]

/-- C1: for every valid (year, week) pair, iso_week_dates returns an ordered
sequence of exactly 7 consecutive dates (element i is the first date plus i),
whose first element is a Monday (ordinal mod 7 = 1) and is the Monday of ISO
week `week`, where week 1 is anchored so that its Thursday is the first
Thursday of the calendar year; hence the first date is at most the last; and
concretely iso_week_dates 2024 1 is 2024-01-01 .. 2024-01-07. -/
theorem week_dates_seven_consecutive_from_monday (year week : Int) (ds : List Int)
    (hok : iso_week_dates year week = .ok ds) :
    ds.length = 7 ∧
    (∀ i, (hi : i < ds.length) → ds.get ⟨i, hi⟩ = ds.headD 0 + i) ∧
    ds.headD 0 % 7 = 1 ∧
    ds.headD 0 ≤ ds.getLastD 0 ∧
    ds.headD 0 = isoweek1monday year + (week - 1) * 7 ∧
    (isoweek1monday year + 3) % 7 = 4 ∧
    ymd2ord year 1 1 ≤ isoweek1monday year + 3 ∧
    isoweek1monday year + 3 ≤ ymd2ord year 1 1 + 6 ∧
    iso_week_dates 2024 1 =
      .ok [ymd2ord 2024 1 1, ymd2ord 2024 1 2, ymd2ord 2024 1 3, ymd2ord 2024 1 4,
           ymd2ord 2024 1 5, ymd2ord 2024 1 6, ymd2ord 2024 1 7] := by
  have hm := iso_week_dates_ok_list hok
  subst hm
  have hmod := isoweek1monday_mod year
  have hth := first_thursday year
  refine ⟨rfl, ?_, by simpa using (by omega), by norm_num, by norm_num,
          hth.1, hth.2.1, hth.2.2, by decide⟩
  intro i hi
  have hi7 : i < 7 := by simpa using hi
  interval_cases i <;> norm_num

theorem week_dates_monday_witness :
    iso_week_dates 2024 1 = .ok wk2024 ∧
    wk2024.length = 7 ∧ wk2024.headD 0 % 7 = 1 ∧ wk2024.headD 0 ≤ wk2024.getLastD 0 :=
  ⟨by decide,
   (week_dates_seven_consecutive_from_monday 2024 1 wk2024 (by decide)).1,
   (week_dates_seven_consecutive_from_monday 2024 1 wk2024 (by decide)).2.2.1,
   (week_dates_seven_consecutive_from_monday 2024 1 wk2024 (by decide)).2.2.2.1⟩

/-- C7: for a representable year, every week number outside the range
[1, weeksInYear year] - where weeksInYear is the actual ISO week count of
the year (52 or 53), defined independently as the length in weeks of the
span between the week-1 Mondays of consecutive years - makes iso_week_dates
fail with the invalid-week error instead of returning dates. -/
theorem invalid_week_errors (year week : Int) (hy : 1 ≤ year) (hy2 : year ≤ 9999)
    (hw : week < 1 ∨ weeksInYear year < week) :
    iso_week_dates year week = .error "Invalid week" := by
  have hbound := weeksInYear_eq year
  have hfrom : fromisocalendar year week 1 = .error "Invalid week" := by
    unfold fromisocalendar
    rw [if_neg (by omega : ¬(year < 1 ∨ 9999 < year)), if_pos]
    rcases Decidable.em (isLongYear year = true) with hl | hl
    · rw [hbound, if_pos hl] at hw
      exact ⟨by omega, fun hc => absurd hc.1 (by omega)⟩
    · rw [hbound, if_neg hl] at hw
      exact ⟨by omega, fun hc => hl hc.2⟩
  unfold iso_week_dates
  rw [hfrom]

theorem invalid_week_witness :
    weeksInYear 2024 = 52 ∧
    iso_week_dates 2024 53 = .error "Invalid week" ∧
    iso_week_dates 2024 0 = .error "Invalid week" :=
  ⟨by decide,
   invalid_week_errors 2024 53 (by decide) (by decide) (Or.inr (by decide)),
   invalid_week_errors 2024 0 (by decide) (by decide) (Or.inl (by decide))⟩

theorem iso_week_dates_mem {y w : Int} {ds : List Int}
    (h : iso_week_dates y w = .ok ds) (x : Int) :
    x ∈ ds ↔ ds.headD 0 ≤ x ∧ x ≤ ds.getLastD 0 := by
  have hl := iso_week_dates_ok_list h
  subst hl
  simp only [List.mem_cons, List.not_mem_nil, or_false, List.headD_cons]
  constructor
  · intro hx
    rcases hx with h1 | h1 | h1 | h1 | h1 | h1 | h1 <;> subst h1 <;> norm_num
  · intro hx
    rw [show ∀ a b c d e f g : Int, List.getLastD [a, b, c, d, e, f, g] 0 = g from
        fun a b c d e f g => rfl] at hx
    omega

/-- C2: a successful submit_week changes exactly the draft entries of the
given person dated inside the computed week into submitted ones (keeping the
other columns), and leaves every other entry, the people and the projects
unchanged. -/
theorem submit_week_transitions_exactly_draft_in_range
    (s : DB) (pid year week : Int) (ds : List Int) (s' : DB)
    (hds : iso_week_dates year week = .ok ds)
    (hok : time_submit_week s pid year week = .ok s') :
    s'.people = s.people ∧ s'.projects = s.projects ∧
    s'.next_entry_id = s.next_entry_id ∧
    List.Forall₂ (fun e f =>
      (e.person_id = pid ∧ e.work_date ∈ ds ∧ e.status = "draft" →
        f = setStatus e "submitted") ∧
      (¬(e.person_id = pid ∧ e.work_date ∈ ds ∧ e.status = "draft") → f = e))
      s.entries s'.entries := by
  simp only [time_submit_week, hds] at hok
  injection hok with hok
  subst hok
  refine ⟨rfl, rfl, rfl, ?_⟩
  rw [List.forall₂_map_right_iff]
  rw [List.forall₂_same]
  intro e he
  constructor
  · intro hc
    rw [if_pos]
    exact ⟨hc.1, ((iso_week_dates_mem hds e.work_date).mp hc.2.1).1,
           ((iso_week_dates_mem hds e.work_date).mp hc.2.1).2, hc.2.2⟩
  · intro hn
    rw [if_neg]
    intro hc
    exact hn ⟨hc.1, (iso_week_dates_mem hds e.work_date).mpr ⟨hc.2.1, hc.2.2.1⟩, hc.2.2.2⟩

theorem submit_week_transitions_witness :
    ∃ s', time_submit_week oneEntryDB 1 2024 1 = .ok s' ∧
      s'.people = oneEntryDB.people ∧
      List.Forall₂ (fun e f =>
        (e.person_id = 1 ∧ e.work_date ∈ wk2024 ∧ e.status = "draft" →
          f = setStatus e "submitted") ∧
        (¬(e.person_id = 1 ∧ e.work_date ∈ wk2024 ∧ e.status = "draft") → f = e))
        oneEntryDB.entries s'.entries := by
  refine ⟨⟨oneEntryDB.people, oneEntryDB.projects,
    [⟨1, 1, none, 738886, 8, none, "submitted"⟩], 2⟩, by decide, ?_, ?_⟩
  · exact (submit_week_transitions_exactly_draft_in_range oneEntryDB 1 2024 1
      wk2024 ⟨oneEntryDB.people, oneEntryDB.projects,
        [⟨1, 1, none, 738886, 8, none, "submitted"⟩], 2⟩
      (by decide) (by decide)).1
  · exact (submit_week_transitions_exactly_draft_in_range oneEntryDB 1 2024 1
      wk2024 ⟨oneEntryDB.people, oneEntryDB.projects,
        [⟨1, 1, none, 738886, 8, none, "submitted"⟩], 2⟩
      (by decide) (by decide)).2.2.2

/-- C6: submit_week is idempotent; after one successful run, running it again
with the same person, year and week succeeds and leaves the state exactly as
it was after the first run. -/
theorem submit_week_idempotent (s s' : DB) (pid year week : Int)
    (hok : time_submit_week s pid year week = .ok s') :
    time_submit_week s' pid year week = .ok s' := by
  cases hds : iso_week_dates year week with
  | error e =>
    simp only [time_submit_week, hds] at hok
    exact Except.noConfusion hok
  | ok ds =>
    simp only [time_submit_week, hds] at hok ⊢
    injection hok with hok
    subst hok
    simp only [List.map_map]
    congr 2
    apply List.map_congr_left
    intro e he
    simp only [Function.comp_apply]
    by_cases hc : e.person_id = pid ∧ ds.headD 0 ≤ e.work_date ∧
        e.work_date ≤ ds.getLastD 0 ∧ e.status = "draft"
    · rw [if_pos hc, if_neg]
      intro hc2
      exact absurd hc2.2.2.2 (by simp [setStatus])
    · rw [if_neg hc, if_neg hc]

theorem submit_week_idempotent_witness :
    ∃ s', time_submit_week oneEntryDB 1 2024 1 = .ok s' ∧
      time_submit_week s' 1 2024 1 = .ok s' := by
  refine ⟨⟨oneEntryDB.people, oneEntryDB.projects,
    [⟨1, 1, none, 738886, 8, none, "submitted"⟩], 2⟩, by decide, ?_⟩
  exact submit_week_idempotent oneEntryDB ⟨oneEntryDB.people, oneEntryDB.projects,
    [⟨1, 1, none, 738886, 8, none, "submitted"⟩], 2⟩ 1 2024 1 (by decide)

theorem forall2_status_update (l : List TimeEntry) (eid : Int) (st : String) :
    List.Forall₂ (fun e f => (e.id = eid → f = setStatus e st) ∧ (e.id ≠ eid → f = e))
      l (l.map (fun e => if e.id = eid then setStatus e st else e)) := by
  rw [List.forall₂_map_right_iff, List.forall₂_same]
  exact fun e he => ⟨fun h => by rw [if_pos h], fun h => by rw [if_neg h]⟩

/-- C5: approve sets the status of the row with the given id to approved and
reject sets it to draft, whatever the previous status was (so a draft can be
approved directly); every other column of that row, every other row, the
people and the projects are untouched. -/
theorem approve_reject_unconditional (s : DB) (eid : Int) :
    (approvals_approve s eid).people = s.people ∧
    (approvals_approve s eid).projects = s.projects ∧
    (approvals_approve s eid).next_entry_id = s.next_entry_id ∧
    List.Forall₂ (fun e f =>
      (e.id = eid → f = setStatus e "approved") ∧ (e.id ≠ eid → f = e))
      s.entries (approvals_approve s eid).entries ∧
    (approvals_reject s eid).people = s.people ∧
    (approvals_reject s eid).projects = s.projects ∧
    (approvals_reject s eid).next_entry_id = s.next_entry_id ∧
    List.Forall₂ (fun e f =>
      (e.id = eid → f = setStatus e "draft") ∧ (e.id ≠ eid → f = e))
      s.entries (approvals_reject s eid).entries :=
  ⟨rfl, rfl, rfl, forall2_status_update s.entries eid "approved",
   rfl, rfl, rfl, forall2_status_update s.entries eid "draft"⟩

/-- C9: when no time entry has the given id, delete, approve and reject all
return without error and leave the state exactly as it was; and deleting
twice with any id gives the same state as deleting once. -/
theorem missing_entry_ops_are_noops (s : DB) (eid : Int)
    (h : ∀ e ∈ s.entries, e.id ≠ eid) :
    time_delete s eid = s ∧ approvals_approve s eid = s ∧
    approvals_reject s eid = s ∧
    (∀ j : Int, time_delete (time_delete s j) j = time_delete s j) := by
  obtain ⟨P, R, E, N⟩ := s
  simp only [time_delete, approvals_approve, approvals_reject, DB.mk.injEq,
    true_and, and_true] at h ⊢
  refine ⟨?_, ?_, ?_, ?_⟩
  · exact List.filter_eq_self.mpr (fun e he => by simpa using h e he)
  · rw [List.map_congr_left (fun e he => if_neg (h e he)), List.map_id']
  · rw [List.map_congr_left (fun e he => if_neg (h e he)), List.map_id']
  · intro j
    simp [time_delete, List.filter_filter]

theorem missing_entry_ops_witness :
    (∀ e ∈ oneEntryDB.entries, e.id ≠ 99) ∧
    time_delete oneEntryDB 99 = oneEntryDB ∧
    approvals_approve oneEntryDB 99 = oneEntryDB :=
  ⟨by decide,
   (missing_entry_ops_are_noops oneEntryDB 99 (by decide)).1,
   (missing_entry_ops_are_noops oneEntryDB 99 (by decide)).2.1⟩

theorem round2cents_nonneg (q : ℚ) (h : 0 ≤ q) : 0 ≤ round2cents q := by
  unfold round2cents
  rw [if_neg (not_lt.mpr h)]
  exact Int.le_floor.mpr (by push_cast; linarith)

theorem round2cents_neg_of_le (q : ℚ) (h : q ≤ -(1 / 200)) : round2cents q < 0 := by
  unfold round2cents
  rw [if_pos (by linarith)]
  have h1 : (1 : Int) ≤ ⌊100 * -q + 1 / 2⌋ := Int.le_floor.mpr (by push_cast; linarith)
  omega

theorem round2cents_eight : round2cents 8 = 800 := by
  unfold round2cents
  rw [if_neg (by norm_num), Int.floor_eq_iff]
  norm_num

theorem round2cents_thousand : round2cents 1000 = 100000 := by
  unfold round2cents
  rw [if_neg (by norm_num), Int.floor_eq_iff]
  norm_num

theorem round2cents_neg_milli : round2cents (-(1 / 1000)) = 0 := by
  unfold round2cents
  rw [if_pos (by norm_num), neg_eq_zero, Int.floor_eq_iff]
  norm_num

/-- C4 as written is refuted by the schema of ensure_v2_schema in three
ways: a supplied project_id referencing no project makes the insert fail
although hours are fine and the person exists; hours = 1000 is non-negative
with an existing person yet overflows NUMERIC(5,2) and fails; and
hours = -1/1000 is negative yet succeeds, because NUMERIC(5,2) rounds it to
0.00 before the CHECK (hours >= 0) is evaluated. -/
theorem add_entry_claim_counterexample :
    (¬((8 : ℚ) < 0) ∧ personExists initDB 1 = true ∧
      time_add initDB 1 (some 99) 738886 8 none =
        .error "v2_time_entries_project_id_fkey") ∧
    (¬((1000 : ℚ) < 0) ∧ personExists initDB 1 = true ∧
      time_add initDB 1 none 738886 1000 none =
        .error "numeric field overflow") ∧
    ((-(1 / 1000) : ℚ) < 0 ∧
      time_add initDB 1 none 738886 (-(1 / 1000)) none =
        .ok ⟨initDB.people, initDB.projects,
             [⟨1, 1, none, 738886, 0, none, "draft"⟩], 2⟩) := by
  refine ⟨⟨by norm_num, by decide, ?_⟩, ⟨by norm_num, by decide, ?_⟩,
          ⟨by norm_num, ?_⟩⟩
  · simp only [time_add, round2cents_eight]
    decide
  · simp only [time_add, round2cents_thousand]
    decide
  · simp only [time_add, round2cents_neg_milli]
    norm_num [personExists, projectRefOk, initDB]

/-- C4 amended: add_entry stores hours coerced to NUMERIC(5,2) (rounded to
two decimals, ties away from zero).  If the rounded value overflows the
column (reaches 1000.00 in magnitude) the insert fails and no entry is
created; if the stored value is negative or person_id references no person
it fails with the ValidationError-class rejection (CHECK hours >= 0,
foreign key) and no entry is created; a non-negative hours value never
trips the CHECK, while hours at or below -0.005 always does; otherwise,
provided any supplied project_id references an existing project, exactly
one new entry is appended, carrying the rounded hours and status draft. -/
theorem add_entry_validation (s : DB) (pid : Int) (pj : Option Int) (wd : Int)
    (hq : ℚ) (n : Option String) :
    (round2cents hq < 0 ∨ personExists s pid = false →
      ∃ msg, time_add s pid pj wd hq n = .error msg) ∧
    (100000 ≤ |round2cents hq| →
      time_add s pid pj wd hq n = .error "numeric field overflow") ∧
    (0 ≤ hq → 0 ≤ round2cents hq) ∧
    (hq ≤ -(1 / 200) → round2cents hq < 0) ∧
    (|round2cents hq| < 100000 → 0 ≤ round2cents hq →
      personExists s pid = true → projectRefOk s pj = true →
      time_add s pid pj wd hq n =
        .ok ⟨s.people, s.projects,
             s.entries ++ [⟨s.next_entry_id, pid, pj, wd,
                            (round2cents hq : ℚ) / 100, n, "draft"⟩],
             s.next_entry_id + 1⟩) := by
  refine ⟨?_, ?_, round2cents_nonneg hq, round2cents_neg_of_le hq, ?_⟩
  · intro hc
    by_cases hov : 100000 ≤ |round2cents hq|
    · exact ⟨"numeric field overflow", by simp [time_add, hov]⟩
    · rcases hc with hc | hc
      · exact ⟨"v2_time_entries_hours_check", by simp [time_add, hov, hc]⟩
      · by_cases hch : round2cents hq < 0
        · exact ⟨"v2_time_entries_hours_check", by simp [time_add, hov, hch]⟩
        · exact ⟨"v2_time_entries_person_id_fkey",
            by simp [time_add, hov, hch, hc]⟩
  · intro hov
    simp [time_add, hov]
  · intro h1 h2 hp hj
    simp [time_add, not_le.mpr h1, not_lt.mpr h2, hp, hj]

theorem add_entry_validation_witness :
    time_add initDB 1 none 738886 8 none =
      .ok ⟨initDB.people, initDB.projects,
           initDB.entries ++ [⟨initDB.next_entry_id, 1, none, 738886,
                              (round2cents 8 : ℚ) / 100, none, "draft"⟩],
           initDB.next_entry_id + 1⟩ ∧
    ∃ msg, time_add initDB 7 none 738886 8 none = .error msg :=
  ⟨(add_entry_validation initDB 1 none 738886 8 none).2.2.2.2
     (by rw [round2cents_eight]; decide) (by rw [round2cents_eight]; decide)
     (by decide) (by decide),
   (add_entry_validation initDB 7 none 738886 8 none).1 (Or.inr (by decide))⟩

/-- C8: every workflow operation only ever writes the statuses draft,
submitted or approved, so in every reachable state every entry status is one
of the three enumerated values. -/
theorem status_always_enumerated (s : DB) (hr : ReachableDB s) : statusOk s := by
  induction hr with
  | init => intro e he; simp [initDB] at he
  | step s1 s2 hr hstep ih =>
    cases hstep with
    | add pid pj wd hq n s2 hok =>
      unfold time_add at hok
      split_ifs at hok
      injection hok with hok
      subst hok
      intro e he
      rcases List.mem_append.mp he with he | he
      · exact ih e he
      · simp at he
        subst he
        exact Or.inl rfl
    | del eid =>
      intro e he
      exact ih e (List.mem_of_mem_filter he)
    | submit pid y w s2 hok =>
      unfold time_submit_week at hok
      cases hds : iso_week_dates y w with
      | error msg => rw [hds] at hok; exact Except.noConfusion hok
      | ok ds =>
        rw [hds] at hok
        injection hok with hok
        subst hok
        intro e he
        obtain ⟨a, ha, rfl⟩ := List.mem_map.mp he
        by_cases hc : a.person_id = pid ∧ ds.headD 0 ≤ a.work_date ∧
            a.work_date ≤ ds.getLastD 0 ∧ a.status = "draft"
        · rw [if_pos hc]
          exact Or.inr (Or.inl rfl)
        · rw [if_neg hc]
          exact ih a ha
    | approve eid =>
      intro e he
      obtain ⟨a, ha, rfl⟩ := List.mem_map.mp he
      by_cases hc : a.id = eid
      · rw [if_pos hc]; exact Or.inr (Or.inr rfl)
      · rw [if_neg hc]; exact ih a ha
    | reject eid =>
      intro e he
      obtain ⟨a, ha, rfl⟩ := List.mem_map.mp he
      by_cases hc : a.id = eid
      · rw [if_pos hc]; exact Or.inl rfl
      · rw [if_neg hc]; exact ih a ha

theorem status_always_enumerated_witness :
    statusOk (approvals_approve (time_delete initDB 5) 3) :=
  status_always_enumerated _
    (ReachableDB.step _ _ (ReachableDB.step _ _ ReachableDB.init
      (Step.del initDB 5)) (Step.approve _ 3))

theorem iso_week_dates_nodup {y w : Int} {ds : List Int}
    (h : iso_week_dates y w = .ok ds) : ds.Nodup := by
  rw [iso_week_dates_ok_list h]
  simp [List.nodup_cons]

theorem map_sum_filter_split (p : TimeEntry → Bool) (rows : List TimeEntry) :
    ((rows.filter p).map (fun e => e.hours)).sum +
      ((rows.filter (fun e => !p e)).map (fun e => e.hours)).sum =
      (rows.map (fun e => e.hours)).sum := by
  induction rows with
  | nil => simp
  | cons a l ih => by_cases hp : p a <;> simp [hp, ← ih] <;> ring

theorem sum_hours_buckets (ds : List Int) (rows : List TimeEntry)
    (hnd : ds.Nodup) (hall : ∀ e ∈ rows, e.work_date ∈ ds) :
    (ds.map (fun d =>
      ((rows.filter (fun e => decide (e.work_date = d))).map
        (fun e => e.hours)).sum)).sum =
      (rows.map (fun e => e.hours)).sum := by
  induction ds generalizing rows with
  | nil =>
    have hr : rows = [] := by
      cases rows with
      | nil => rfl
      | cons a l => exact absurd (hall a (by simp)) (by simp)
    subst hr
    simp
  | cons d ds ih =>
    obtain ⟨hdni, hnd2⟩ := List.nodup_cons.mp hnd
    simp only [List.map_cons, List.sum_cons]
    rw [← map_sum_filter_split (fun e => decide (e.work_date = d)) rows]
    congr 1
    have hbuck : ∀ d0 ∈ ds,
        rows.filter (fun e => decide (e.work_date = d0)) =
        (rows.filter (fun e => !decide (e.work_date = d))).filter
          (fun e => decide (e.work_date = d0)) := by
      intro d0 hd0
      rw [List.filter_filter]
      apply List.filter_congr
      intro e he
      by_cases hw : e.work_date = d0
      · simp [hw, show ¬d0 = d from fun hh => hdni (hh ▸ hd0)]
      · simp [hw]
    rw [List.map_congr_left (fun d0 hd0 => by rw [hbuck d0 hd0])]
    apply ih (rows.filter (fun e => !decide (e.work_date = d))) hnd2
    intro e he
    have hin := List.of_mem_filter he
    have hmem := hall e (List.mem_of_mem_filter he)
    simp only [Bool.not_eq_true', decide_eq_false_iff_not] at hin
    rcases List.mem_cons.mp hmem with hh | hh
    · exact absurd hh hin
    · exact hh

theorem weekRows_day_filter (s : DB) (pid : Int) (ds : List Int) (d : Int)
    (hd : d ∈ ds) :
    (weekRows s pid ds).filter (fun e => decide (e.work_date = d)) =
      s.entries.filter (fun e => decide (e.person_id = pid ∧ e.work_date = d)) := by
  unfold weekRows
  rw [List.filter_filter]
  apply List.filter_congr
  intro e he
  by_cases hp : e.person_id = pid <;> by_cases hw : e.work_date = d <;>
    simp [hp, hw, hd]

theorem hint_of_rows_spec (rows : List TimeEntry) :
    (rows = [] → hint_of_rows rows = "draft") ∧
    (rows ≠ [] → (∀ e ∈ rows, e.status = "approved") →
      hint_of_rows rows = "approved") ∧
    (¬(rows ≠ [] ∧ ∀ e ∈ rows, e.status = "approved") →
      (∃ e ∈ rows, e.status = "submitted") → hint_of_rows rows = "submitted") ∧
    (¬(rows ≠ [] ∧ ∀ e ∈ rows, e.status = "approved") →
      ¬(∃ e ∈ rows, e.status = "submitted") → hint_of_rows rows = "draft") := by
  cases rows with
  | nil =>
    refine ⟨fun _ => ?_, fun h => absurd rfl h, fun _ h => ?_, fun _ _ => ?_⟩
    · simp [hint_of_rows, sql_all_approved, sql_any_submitted]
    · exact absurd h (by simp)
    · simp [hint_of_rows, sql_all_approved, sql_any_submitted]
  | cons a t =>
    by_cases hall : ∀ e ∈ a :: t, e.status = "approved"
    · have htrue : sql_all_approved (a :: t) = true := by
        simp only [sql_all_approved, Bool.and_eq_true, Bool.not_eq_true',
          List.all_eq_true, beq_iff_eq]
        exact ⟨by simp, fun e he => hall e he⟩
      refine ⟨fun h => absurd h (by simp), fun _ _ => ?_,
              fun h => absurd ⟨by simp, hall⟩ h, fun h => absurd ⟨by simp, hall⟩ h⟩
      simp [hint_of_rows, htrue]
    · have hfalse : sql_all_approved (a :: t) = false := by
        rcases Bool.eq_false_or_eq_true (sql_all_approved (a :: t)) with ht | hf
        swap
        · exact hf
        · exfalso
          simp only [sql_all_approved, Bool.and_eq_true, Bool.not_eq_true',
            List.all_eq_true, beq_iff_eq] at ht
          exact hall (fun e he => ht.2 e he)
      refine ⟨fun h => absurd h (by simp), fun _ h => absurd h hall,
              fun _ hex => ?_, fun _ hnex => ?_⟩
      · have hany : sql_any_submitted (a :: t) = true := by
          simp only [sql_any_submitted, List.any_eq_true, beq_iff_eq]
          obtain ⟨e, he, hs⟩ := hex
          exact ⟨e, he, hs⟩
        simp [hint_of_rows, hfalse, hany]
      · have hany : sql_any_submitted (a :: t) = false := by
          simp only [sql_any_submitted, List.any_eq_false, beq_iff_eq]
          intro e he hs
          exact hnex ⟨e, he, hs⟩
        simp [hint_of_rows, hfalse, hany]

/-- C3: a successful my_week summary for (person, year, week) has the seven
week days as keys of the grouping (in order, even for empty days), each day
bucket holds exactly the person's entries dated that day, total_hours is the
sum of hours over the person's entries dated in the week - equivalently the
sum of the per-day bucket sums - and the status hint is approved when the
range is non-empty and all its entries are approved, else submitted when one
is submitted, else draft (in particular an empty range gives draft). -/
theorem week_summary_totals_grouping_status (s : DB) (pid year week : Int) (ds : List Int) (sum : WeekSummary)
    (hds : iso_week_dates year week = .ok ds)
    (hok : my_week s pid year week = .ok sum) :
    sum.days = ds ∧
    sum.by_day.map Prod.fst = ds ∧
    (∀ d ∈ ds, ∀ pr ∈ sum.by_day, pr.1 = d →
      pr.2 = s.entries.filter (fun e =>
        decide (e.person_id = pid ∧ e.work_date = d))) ∧
    sum.total_hours = ((weekRows s pid ds).map (fun e => e.hours)).sum ∧
    sum.total_hours =
      (sum.by_day.map (fun pr => ((pr.2.map (fun e => e.hours)).sum))).sum ∧
    (weekRows s pid ds = [] → sum.status_hint = "draft") ∧
    (weekRows s pid ds ≠ [] → (∀ e ∈ weekRows s pid ds, e.status = "approved") →
      sum.status_hint = "approved") ∧
    (¬(weekRows s pid ds ≠ [] ∧ ∀ e ∈ weekRows s pid ds, e.status = "approved") →
      (∃ e ∈ weekRows s pid ds, e.status = "submitted") →
      sum.status_hint = "submitted") ∧
    (¬(weekRows s pid ds ≠ [] ∧ ∀ e ∈ weekRows s pid ds, e.status = "approved") →
      ¬(∃ e ∈ weekRows s pid ds, e.status = "submitted") →
      sum.status_hint = "draft") := by
  simp only [my_week, hds] at hok
  injection hok with hok
  have hrows : s.entries.filter (fun e =>
      decide (e.person_id = pid ∧ ds.headD 0 ≤ e.work_date ∧
        e.work_date ≤ ds.getLastD 0)) = weekRows s pid ds := by
    unfold weekRows
    apply List.filter_congr
    intro e he
    rw [decide_eq_decide]
    exact and_congr_right (fun _ => (iso_week_dates_mem hds e.work_date).symm)
  rw [hrows] at hok
  subst hok
  have hspec := hint_of_rows_spec (weekRows s pid ds)
  have hall : ∀ e ∈ weekRows s pid ds, e.work_date ∈ ds := by
    intro e he
    have := List.of_mem_filter he
    simp only [decide_eq_true_eq] at this
    exact this.2
  refine ⟨rfl, ?_, ?_, rfl, ?_, hspec.1, hspec.2.1, hspec.2.2.1, hspec.2.2.2⟩
  · simp [Function.comp_def]
  · intro d hd pr hpr hfst
    simp only [List.mem_map] at hpr
    obtain ⟨d0, hd0, rfl⟩ := hpr
    simp only at hfst
    subst hfst
    simpa using weekRows_day_filter s pid ds d0 hd0
  · simp only [List.map_map, Function.comp]
    exact (sum_hours_buckets ds (weekRows s pid ds)
      (iso_week_dates_nodup hds) hall).symm

theorem exWeek_eval : my_week exWeekDB 1 2024 1 = .ok exWeekSummary := by
  have hds : iso_week_dates 2024 1 =
      .ok [738886, 738887, 738888, 738889, 738890, 738891, 738892] := by decide
  norm_num [my_week, hds, exWeekDB, exWeekSummary, hint_of_rows,
    sql_all_approved, sql_any_submitted]
  decide

theorem week_summary_witness :
    my_week exWeekDB 1 2024 1 = .ok exWeekSummary ∧
    exWeekSummary.total_hours = 8 ∧
    exWeekSummary.status_hint = "submitted" ∧
    exWeekSummary.by_day.map Prod.fst = wk2024 :=
  ⟨exWeek_eval, by norm_num [exWeekSummary],
   (week_summary_totals_grouping_status exWeekDB 1 2024 1 wk2024 exWeekSummary
      (by decide) exWeek_eval).2.2.2.2.2.2.2.1 (by decide) (by decide),
   (week_summary_totals_grouping_status exWeekDB 1 2024 1 wk2024 exWeekSummary
      (by decide) exWeek_eval).2.1⟩

/-- C10: GET /my-week without a person_id deterministically substitutes the
existing person with the smallest id (the head of the id column sorted
ascending) and then renders that person's week; with no people at all it
fails with the RuntimeError message No v2_people in DB before rendering. -/
theorem default_person_smallest_id (s : DB) (year week : Int) :
    (s.people = [] → my_week_route s none year week = .error "No v2_people in DB") ∧
    (s.people ≠ [] →
      ∃ m, pick_default_person_id s = .ok m ∧ (∃ p ∈ s.people, p.id = m) ∧
        (∀ p ∈ s.people, m ≤ p.id) ∧
        my_week_route s none year week = my_week s m year week) := by
  constructor
  · intro hemp
    simp [my_week_route, pick_default_person_id, hemp]
  · intro hne
    have hperm : (List.insertionSort (fun a b => a ≤ b) (s.people.map Person.id)).Perm
        (s.people.map Person.id) := List.perm_insertionSort _ _
    have hsorted : (List.insertionSort (fun a b => a ≤ b)
        (s.people.map Person.id)).Sorted (fun a b => a ≤ b) :=
      List.sorted_insertionSort _ _
    cases hcons : List.insertionSort (fun a b => a ≤ b) (s.people.map Person.id) with
    | nil =>
      rw [hcons] at hperm
      exact absurd (List.map_eq_nil_iff.mp hperm.nil_eq.symm) hne
    | cons m rest =>
      rw [hcons] at hperm hsorted
      have hpick : pick_default_person_id s = .ok m := by
        simp [pick_default_person_id, hcons]
      refine ⟨m, hpick, ?_, ?_, by simp [my_week_route, hpick]⟩
      · have hm : m ∈ s.people.map Person.id := hperm.subset (by simp)
        obtain ⟨p, hp, hid⟩ := List.mem_map.mp hm
        exact ⟨p, hp, hid⟩
      · intro p hp
        have hmem : p.id ∈ m :: rest :=
          hperm.symm.subset (List.mem_map_of_mem Person.id hp)
        rcases List.mem_cons.mp hmem with hh | hh
        · exact le_of_eq hh.symm
        · exact (List.sorted_cons.mp hsorted).1 p.id hh

theorem default_person_witness :
    (∃ m, pick_default_person_id twoPeopleDB = .ok m ∧
      (∃ p ∈ twoPeopleDB.people, p.id = m) ∧
      (∀ p ∈ twoPeopleDB.people, m ≤ p.id) ∧
      my_week_route twoPeopleDB none 2024 1 = my_week twoPeopleDB m 2024 1) ∧
    my_week_route ⟨[], [], [], 1⟩ none 2024 1 = .error "No v2_people in DB" :=
  ⟨(default_person_smallest_id twoPeopleDB 2024 1).2 (by decide),
   (default_person_smallest_id ⟨[], [], [], 1⟩ 2024 1).1 rfl⟩
